import Mathlib

/-!
Verification of the RoomView adaptive detection core.

The Python source under `backend/detection/` is shallowly embedded:
pure numeric and list-processing code is translated to Lean functions
over `ℚ`, `ℤ` and `List`; OpenCV image primitives (`contourArea`,
`boundingRect`, `convexHull`, `findContours` hierarchy, Canny/dilation
fill ratios, Hough circle sampling) are represented by their measured
values, which are passed in as data.  Python `int()` (truncation toward
zero) and `round(x, n)` (round half to even at `n` decimals) are
modelled exactly on `ℚ`.
-/

namespace RoomView

/-- Python `int()` applied to a rational: truncation toward zero. -/
def pyint (q : ℚ) : ℤ := if 0 ≤ q then ⌊q⌋ else ⌈q⌉

/-- Round a rational to the nearest integer, ties to even
(the rounding used by Python `round`). -/
def round_half_even (x : ℚ) : ℤ :=
  if x - ⌊x⌋ < 1/2 then ⌊x⌋
  else if 1/2 < x - ⌊x⌋ then ⌊x⌋ + 1
  else if ⌊x⌋ % 2 = 0 then ⌊x⌋ else ⌊x⌋ + 1

/-- Python `round(x, d)`: round to `d` decimal places, ties to even. -/
def pyround (x : ℚ) (d : ℕ) : ℚ := (round_half_even (x * 10 ^ d) : ℚ) / 10 ^ d

theorem round_half_even_ge_floor (x : ℚ) : ⌊x⌋ ≤ round_half_even x := by
  unfold round_half_even
  split_ifs <;> omega

theorem round_half_even_le_ceil (x : ℚ) : round_half_even x ≤ ⌈x⌉ := by
  unfold round_half_even
  split_ifs with h1 h2 h3
  · exact Int.floor_le_ceil x
  · have hx : (⌊x⌋ : ℚ) < x := by
      have := not_lt.1 h1
      linarith
    have : ⌊x⌋ < ⌈x⌉ := Int.lt_ceil.2 hx
    omega
  · exact Int.floor_le_ceil x
  · have hx : (⌊x⌋ : ℚ) < x := by
      have := not_lt.1 h1
      linarith
    have : ⌊x⌋ < ⌈x⌉ := Int.lt_ceil.2 hx
    omega

theorem abs_round_half_even_sub (x : ℚ) : |(round_half_even x : ℚ) - x| ≤ 1/2 := by
  have hfl := Int.floor_le x
  have hlt := Int.lt_floor_add_one x
  unfold round_half_even
  split_ifs with h1 h2 h3 <;> rw [abs_le] <;> constructor <;> push_cast <;> linarith

theorem abs_pyround_sub (x : ℚ) (d : ℕ) : |pyround x d - x| ≤ 1 / (2 * 10 ^ d) := by
  have h10 : (0:ℚ) < 10 ^ d := by positivity
  have h := abs_round_half_even_sub (x * 10 ^ d)
  unfold pyround
  have : (round_half_even (x * 10 ^ d) : ℚ) / 10 ^ d - x
      = ((round_half_even (x * 10 ^ d) : ℚ) - x * 10 ^ d) / 10 ^ d := by
    field_simp
    ring
  rw [this, abs_div, abs_of_pos h10, div_le_div_iff h10 (by positivity)]
  calc |(round_half_even (x * 10 ^ d) : ℚ) - x * 10 ^ d| * (2 * 10 ^ d)
      ≤ (1/2) * (2 * 10 ^ d) := by nlinarith [abs_nonneg ((round_half_even (x * 10 ^ d) : ℚ) - x * 10 ^ d)]
    _ = 1 * 10 ^ d := by ring

theorem pyround_nonneg (x : ℚ) (d : ℕ) (hx : 0 ≤ x) : 0 ≤ pyround x d := by
  unfold pyround
  have : (0:ℤ) ≤ round_half_even (x * 10 ^ d) := by
    have := round_half_even_ge_floor (x * 10 ^ d)
    have h0 : (0:ℤ) ≤ ⌊x * 10 ^ d⌋ := Int.le_floor.2 (by positivity)
    omega
  positivity

theorem pyround_le_one (x : ℚ) (d : ℕ) (hx : x ≤ 1) : pyround x d ≤ 1 := by
  unfold pyround
  have h10 : (0:ℚ) < 10 ^ d := by positivity
  have hceil : round_half_even (x * 10 ^ d) ≤ ⌈x * 10 ^ d⌉ := round_half_even_le_ceil _
  have hc : ⌈x * 10 ^ d⌉ ≤ (10 ^ d : ℤ) := by
    rw [Int.ceil_le]
    push_cast
    nlinarith
  rw [div_le_one h10]
  have : (round_half_even (x * 10 ^ d) : ℚ) ≤ ((10 ^ d : ℤ) : ℚ) := by exact_mod_cast le_trans hceil hc
  simpa using this

theorem abs_pyint_sub_lt (v : ℚ) : |(pyint v : ℚ) - v| < 1 := by
  unfold pyint
  split_ifs with h
  · have h1 := Int.floor_le v
    have h2 := Int.lt_floor_add_one v
    rw [abs_lt]; constructor <;> linarith
  · have h1 := Int.le_ceil v
    have h2 := Int.ceil_lt_add_one v
    rw [abs_lt]; constructor <;> linarith

theorem pyint_close (v : ℚ) (n : ℤ) (h : |v - n| ≤ 1) : |pyint v - n| ≤ 1 := by
  have h1 := abs_pyint_sub_lt v
  have h2 : |(pyint v : ℚ) - n| < 2 := by
    calc |(pyint v : ℚ) - n| = |((pyint v : ℚ) - v) + (v - n)| := by ring_nf
      _ ≤ |(pyint v : ℚ) - v| + |v - n| := abs_add _ _
      _ < 2 := by linarith
  have h3 : (|pyint v - n| : ℚ) < 2 := by
    rw [← Int.cast_sub, ← Int.cast_abs] at h2 ⊢
    exact_mod_cast h2
  have h4 : |pyint v - n| < 2 := by exact_mod_cast h3
  omega

theorem pyint_eq_floor_of_nonneg (v : ℚ) (h : 0 ≤ v) : pyint v = ⌊v⌋ := by
  unfold pyint; simp [h]

/-- Sort a list in descending order of a rational-valued key
(Python `sorted(..., key=..., reverse=True)` / `list.sort(reverse=True)`). -/
def sortDescBy {α : Type} (key : α → ℚ) (l : List α) : List α :=
  l.insertionSort (fun a b => key b ≤ key a)

theorem mem_sortDescBy {α : Type} (key : α → ℚ) (l : List α) (x : α) :
    x ∈ sortDescBy key l ↔ x ∈ l :=
  (List.perm_insertionSort _ l).mem_iff

theorem sorted_sortDescBy {α : Type} (key : α → ℚ) (l : List α) :
    (sortDescBy key l).Sorted (fun a b => key b ≤ key a) := by
  haveI : IsTotal α (fun a b => key b ≤ key a) := ⟨fun a b => (le_total (key a) (key b)).symm⟩
  haveI : IsTrans α (fun a b => key b ≤ key a) := ⟨fun a b c h1 h2 => le_trans h2 h1⟩
  exact List.sorted_insertionSort _ l

/-- numpy `median`: sort ascending; middle element for odd length,
mean of the two middle elements for even length (0 on the empty list,
which the callers never pass). -/
def npMedian (l : List ℚ) : ℚ :=
  if (l.insertionSort (· ≤ ·)).length = 0 then 0
  else if (l.insertionSort (· ≤ ·)).length % 2 = 1 then
    (l.insertionSort (· ≤ ·)).getD ((l.insertionSort (· ≤ ·)).length / 2) 0
  else
    ((l.insertionSort (· ≤ ·)).getD ((l.insertionSort (· ≤ ·)).length / 2 - 1) 0
      + (l.insertionSort (· ≤ ·)).getD ((l.insertionSort (· ≤ ·)).length / 2) 0) / 2

/-- numpy `mean`: sum divided by length. -/
def npMean (l : List ℚ) : ℚ := l.sum / l.length

theorem npMedian_nonneg (l : List ℚ) (h : ∀ x ∈ l, 0 ≤ x) : 0 ≤ npMedian l := by
  unfold npMedian
  have hmem : ∀ x ∈ l.insertionSort (· ≤ ·), 0 ≤ x := by
    intro x hx
    exact h x ((List.perm_insertionSort _ l).mem_iff.1 hx)
  have hget : ∀ i : ℕ, 0 ≤ (l.insertionSort (· ≤ ·)).getD i 0 := by
    intro i
    by_cases hi : i < (l.insertionSort (· ≤ ·)).length
    · rw [List.getD_eq_getElem _ _ hi]
      exact hmem _ (List.getElem_mem hi)
    · rw [List.getD_eq_default _ _ (le_of_not_lt hi)]
  split_ifs
  · exact le_refl 0
  · exact hget _
  · have h1 := hget ((l.insertionSort (· ≤ ·)).length / 2 - 1)
    have h2 := hget ((l.insertionSort (· ≤ ·)).length / 2)
    linarith

/-! ## Style Analyzer (`blueprint_analyzer.py`) -/

/-- Function `classify_blueprint_style` from `blueprint_analyzer.py`: decision
chain over wall thickness, line density and noise (contrast is accepted
but unused, as in the source). -/
def classify_blueprint_style (wall_thickness line_density contrast noise : ℚ) : String :=
  if 8 < wall_thickness ∧ line_density < 5/100 then "clean_cad"
  else if 8 < wall_thickness ∧ 5/100 ≤ line_density then "detailed_cad"
  else if wall_thickness ≤ 8 ∧ line_density < 5/100 then "simple_line_drawing"
  else if wall_thickness ≤ 8 ∧ 5/100 ≤ line_density then "detailed_line_drawing"
  else if 3/10 < noise then "scanned"
  else "mixed_style"

/-- Modelled from the spec: the decision table of section 4.1, with its
stated precedence ("thickness>8 & density<0.05 → clean_cad; … else if
noise>0.3 → scanned; else mixed_style"), written independently of the
code for refinement comparison. -/
def classify_spec_table (wall_thickness line_density contrast noise : ℚ) : String :=
  if 8 < wall_thickness then
    (if line_density < 5/100 then "clean_cad" else "detailed_cad")
  else if wall_thickness ≤ 8 then
    (if line_density < 5/100 then "simple_line_drawing" else "detailed_line_drawing")
  else if 3/10 < noise then "scanned"
  else "mixed_style"

/-- A contour of the Canny edge map, reduced to its bounding-rectangle
dimensions (`cv2.boundingRect`), which is all `estimate_wall_thickness`
reads from it. -/
structure EdgeContour where
  w : ℤ
  h : ℤ
deriving DecidableEq

/-- Function `estimate_wall_thickness` from `blueprint_analyzer.py`.  The Canny
edge map and its progressive dilations are represented by their
measurements: `ratios i` is the filled-pixel ratio of the edge map
dilated `i` times (`np.sum(dilated > 0) / dilated.size`), and
`contours` are the bounding rectangles of the traced edge contours.
The source loops `i` over `range(1, 15)`, collects `i * 3` for every
iteration whose ratio lies in `(0.05, 0.15)`, and returns the mean of
the collected values; if none collected, the median of the smaller
bounding-rectangle dimension over the first 50 contours; 5.0 when the
edge map has no contours at all. -/
def estimate_wall_thickness (ratios : ℕ → ℚ) (contours : List EdgeContour) : ℚ :=
  if contours.isEmpty then 5
  else
    let thicknesses := (List.range' 1 14).filterMap fun i =>
      if 5/100 < ratios i ∧ ratios i < 15/100 then some ((i : ℚ) * 3) else none
    if thicknesses.isEmpty then
      let widths := (contours.take 50).map fun c => ((min c.w c.h : ℤ) : ℚ)
      if widths.isEmpty then 5 else npMedian widths
    else npMean thicknesses

/-- The adaptive parameter dictionary built by `get_adaptive_parameters`.
Keys that the function may leave absent from the Python dict are
`Option` fields (`none` = key absent): `fill_hollow_rooms` is only set
for the CAD styles, and `morph_dilate_size` is never set at all. -/
structure AdaptiveParams where
  morph_open_size : ℤ
  min_room_area_pixels : ℤ
  min_solidity : ℚ
  denoise_strength : ℤ
  morph_close_size : ℤ
  fill_hollow_rooms : Option Bool
  morph_dilate_size : Option ℤ
deriving DecidableEq

/-- Function `get_adaptive_parameters` from `blueprint_analyzer.py`: base values,
style-specific overrides, then the two linear fine-tuning corrections
(line density nudges the opening kernel by ±2 clamped to [2, 11]; wall
thickness scales the minimum room area by ±20% through `int(...)`),
and finally the solidity setting. -/
def get_adaptive_parameters (style : String) (wall_thickness line_density contrast : ℚ) :
    AdaptiveParams :=
  let p : AdaptiveParams :=
    ⟨5, 5000, 6/10, 10, 3, none, none⟩
  let p :=
    if style = "clean_cad" then
      { p with morph_open_size := 3, min_room_area_pixels := 4000, denoise_strength := 5,
               morph_close_size := 7, fill_hollow_rooms := some true }
    else if style = "detailed_cad" then
      { p with morph_open_size := 9, min_room_area_pixels := 8000, denoise_strength := 10,
               fill_hollow_rooms := some true }
    else if style = "simple_line_drawing" then
      { p with morph_open_size := 2, min_room_area_pixels := 3000, morph_close_size := 5,
               denoise_strength := 5 }
    else if style = "detailed_line_drawing" then
      { p with morph_open_size := 5, min_room_area_pixels := 5000, morph_close_size := 4 }
    else if style = "scanned" then
      { p with morph_open_size := 6, denoise_strength := 15, min_room_area_pixels := 6000 }
    else p
  let p :=
    if 8/100 < line_density then { p with morph_open_size := min (p.morph_open_size + 2) 11 }
    else if line_density < 3/100 then { p with morph_open_size := max (p.morph_open_size - 2) 2 }
    else p
  let p :=
    if 10 < wall_thickness then
      { p with min_room_area_pixels := pyint ((p.min_room_area_pixels : ℚ) * (8/10)) }
    else if wall_thickness < 5 then
      { p with min_room_area_pixels := pyint ((p.min_room_area_pixels : ℚ) * (12/10)) }
    else p
  if style = "clean_cad" ∨ style = "detailed_cad" then { p with min_solidity := 2/10 }
  else { p with min_solidity := 3/10 }

/-- Field `min_reasonable_area` of `get_scale_context`:
`max(median_area - 2 * std_area, median_area * 0.3)`.  The standard
deviation is kept as a parameter because its (irrational) value never
matters to the claims proved below. -/
def min_reasonable_area (median_area std_area : ℚ) : ℚ :=
  max (median_area - 2 * std_area) (median_area * (3/10))

/-- Field `outlier_threshold` of `get_scale_context`: `median_area * 0.25`,
the only field of the scale context that `detect_rooms_adaptive`
actually consumes. -/
def outlier_threshold (median_area : ℚ) : ℚ := median_area * (25/100)

/-! ## Region hierarchy extraction and scoring
(`opencv_detector_improved.py`, `opencv_detector_adaptive.py`) -/

/-- A contour as consumed by the room detectors, reduced to the
measurements the code reads from OpenCV: `cv2.contourArea` (`area`),
`cv2.boundingRect` (`x, y, w, h`), the convex hull's area
(`hullArea`), and the hierarchy parent index from
`cv2.findContours(..., RETR_TREE, ...)` (`parent`, `-1` if top-level). -/
structure Contour where
  area : ℚ
  x : ℤ
  y : ℤ
  w : ℤ
  h : ℤ
  hullArea : ℚ
  parent : ℤ
deriving DecidableEq

/-- Module-level `DETECTION_CONFIG['min_room_area_pixels']` of
`opencv_detector_improved.py`. -/
def global_min_room_area_pixels : ℤ := 5000

/-- Module-level `DETECTION_CONFIG['max_room_area_pixels']`. -/
def global_max_room_area_pixels : ℤ := 500000

/-- The per-index test of `extract_rooms_from_hierarchy`: must have a
parent, area within the module-level `DETECTION_CONFIG` size band, and
area-to-parent-area ratio strictly within `(0.05, 0.85)` with positive
parent area.  An out-of-range parent index is treated as a skip (the
OpenCV hierarchy always yields valid parent indices). -/
def hierarchy_candidate (contours : List Contour) (idx : ℕ) : Bool :=
  match contours.get? idx with
  | none => false
  | some c =>
    if c.parent = -1 then false
    else if c.area < (global_min_room_area_pixels : ℚ) then false
    else if (global_max_room_area_pixels : ℚ) < c.area then false
    else
      match contours.get? c.parent.toNat with
      | none => false
      | some p =>
        if 0 < p.area then
          decide (5/100 < c.area / p.area ∧ c.area / p.area < 85/100)
        else false

/-- Function `extract_rooms_from_hierarchy`: indices of contours passing
`hierarchy_candidate`, in index order. -/
def extract_rooms_from_hierarchy (contours : List Contour) : List ℕ :=
  (List.range contours.length).filter (hierarchy_candidate contours)

/-- Function `extract_rooms_by_size` (the flat fallback of
`opencv_detector_adaptive.py`): indices of contours whose area alone is
strictly within `(min_area, max_area)` of the (possibly overridden)
config. -/
def extract_rooms_by_size (contours : List Contour) (min_area max_area : ℤ) : List ℕ :=
  (List.range contours.length).filter fun idx =>
    match contours.get? idx with
    | none => false
    | some c => decide ((min_area : ℚ) < c.area ∧ c.area < (max_area : ℚ))

/-- The aspect-ratio component of `calculate_room_confidence_score`:
1.0 up to ratio 3, then `1.0 - ((ratio - 3) / 5) * 0.5`, then 0 beyond
ratio 8. -/
def aspect_score_of_ratio (r : ℚ) : ℚ :=
  if r ≤ 3 then 1
  else if r ≤ 8 then 1 - ((r - 3) / 5) * (1/2)
  else 0

/-- Aspect score of a bounding box of dimensions `w × h`.  When
`min(w, h)` is not positive the source sets the ratio to `float('inf')`
and the score chain yields 0; both reductions give the same value. -/
def box_aspect_score (w h : ℤ) : ℚ :=
  if 0 < min w h then aspect_score_of_ratio ((max w h : ℤ) / (min w h : ℤ) : ℚ) else 0

/-- Function `calculate_room_confidence_score` from `opencv_detector_adaptive.py`
(the returned score; the metrics dict is not modelled).  The bounding
box the source passes alongside the contour is `cv2.boundingRect` of
that contour, i.e. the `x, y, w, h` fields of `c`. -/
def calculate_room_confidence_score (c : Contour) (style : String) : ℚ :=
  let solidity : ℚ := if 0 < c.hullArea then c.area / c.hullArea else 0
  let bbox_area : ℚ := ((c.w * c.h : ℤ) : ℚ)
  let extent : ℚ := if 0 < bbox_area then c.area / bbox_area else 0
  let aspect_score := box_aspect_score c.w c.h
  let solidity_score := min solidity 1
  let extent_score := min extent 1
  let size_score : ℚ := if 5000 < c.area ∧ c.area < 100000 then 1 else 1/2
  if style = "clean_cad" ∨ style = "detailed_cad" then
    (1/10) * solidity_score + (2/10) * extent_score + (5/10) * aspect_score + (2/10) * size_score
  else if style = "simple_line_drawing" ∨ style = "detailed_line_drawing" then
    (3/10) * solidity_score + (3/10) * extent_score + (3/10) * aspect_score + (1/10) * size_score
  else
    (25/100) * solidity_score + (25/100) * extent_score + (3/10) * aspect_score + (2/10) * size_score

/-- Function `filter_by_room_characteristics_adaptive`: hard minimum-dimension
filter (50 px from the config) then the score threshold 0.3. -/
def filter_by_room_characteristics_adaptive
    (candidate_indices : List ℕ) (contours : List Contour) (style : String) : List ℕ :=
  candidate_indices.filter fun idx =>
    match contours.get? idx with
    | none => false
    | some c =>
      if c.w < 50 ∨ c.h < 50 then false
      else decide (¬ calculate_room_confidence_score c style < 3/10)

/-- A detected room as built by STEP 4 of `detect_rooms_adaptive`.  The
`room_{idx:03d}` string id is modelled by the integer `idx`; the
simplified polygon and the trailing metadata fields are not modelled. -/
structure Room where
  id : ℕ
  bounding_box : ℤ × ℤ × ℤ × ℤ
  confidence_score : ℚ
  type_hint : String
  area_pixels : ℤ
deriving DecidableEq

/-- Build the STEP 4 room record for contour `c` (index `idx` in the
accepted list). -/
def mkRoom (style : String) (idx : ℕ) (c : Contour) : Room :=
  { id := idx
    bounding_box := (c.x, c.y, c.x + c.w, c.y + c.h)
    confidence_score := pyround (calculate_room_confidence_score c style) 2
    type_hint :=
      if 4 < (if 0 < min c.w c.h then ((max c.w c.h : ℤ) : ℚ) / ((min c.w c.h : ℤ) : ℚ) else 1)
      then "hallway" else "room"
    area_pixels := pyint c.area }

/-- Function `calculate_iou` from `opencv_detector_improved.py`. -/
def calculate_iou (box1 box2 : ℤ × ℤ × ℤ × ℤ) : ℚ :=
  let (x1min, y1min, x1max, y1max) := box1
  let (x2min, y2min, x2max, y2max) := box2
  let xi := max x1min x2min
  let yi := max y1min y2min
  let xa := min x1max x2max
  let ya := min y1max y2max
  if xa < xi ∨ ya < yi then 0
  else
    let inter := (xa - xi) * (ya - yi)
    let area1 := (x1max - x1min) * (y1max - y1min)
    let area2 := (x2max - x2min) * (y2max - y2min)
    let uni := area1 + area2 - inter
    if uni = 0 then 0 else (inter : ℚ) / (uni : ℚ)

/-- The sweep of `remove_duplicates`: visit the (already sorted) list
once, growing the `kept` accumulator; a room is skipped exactly when
some already-kept room overlaps it with IoU above the threshold — the
functional form of the source's `keep` / `skip_indices` loop, where a
room lands in `skip_indices` when an earlier kept room conflicts with
it. -/
def iou_sweep (t : ℚ) (kept : List Room) : List Room → List Room
  | [] => []
  | r :: rest =>
      if kept.any fun k => decide (t < calculate_iou k.bounding_box r.bounding_box) then
        iou_sweep t kept rest
      else r :: iou_sweep t (kept ++ [r]) rest

/-- Function `remove_duplicates`: lists of length ≤ 1 pass through; otherwise
sort by confidence descending and sweep. -/
def remove_duplicates (rooms : List Room) (iou_threshold : ℚ) : List Room :=
  if rooms.length ≤ 1 then rooms
  else iou_sweep iou_threshold [] (sortDescBy (fun r => r.confidence_score) rooms)

/-- STEP 5 of `detect_rooms_adaptive`: when more than 3 rooms are
present, keep exactly the rooms whose `area_pixels` is at least the
scale context's outlier threshold (0.25 × the median area of the very
same population); otherwise pass the list through. -/
def scale_filter_step (rooms : List Room) : List Room :=
  if 3 < rooms.length then
    rooms.filter fun r =>
      decide (outlier_threshold (npMedian (rooms.map fun s => (s.area_pixels : ℚ)))
        ≤ (r.area_pixels : ℚ))
  else rooms

/-- STEP 2 plus the hybrid fallback of `detect_rooms_adaptive`: the
hierarchy candidates, supplemented (and deduplicated, as Python's
`list(set(...))`, whose iteration order is an implementation detail no
later stage's result set depends on) with the flat size-based
candidates when the hierarchy yields fewer than 3. -/
def candidate_indices (contours : List Contour) (min_area : ℤ) : List ℕ :=
  if (extract_rooms_from_hierarchy contours).length < 3 then
    (extract_rooms_from_hierarchy contours
      ++ extract_rooms_by_size contours min_area global_max_room_area_pixels).dedup
  else extract_rooms_from_hierarchy contours

/-- STEP 4 of `detect_rooms_adaptive`: build a room record for each
accepted contour index, enumerated for ids. -/
def build_rooms (style : String) (contours : List Contour) (valid : List ℕ) : List Room :=
  valid.enum.filterMap fun p => (contours.get? p.2).map (mkRoom style p.1)

/-- Function `detect_rooms_adaptive` from `opencv_detector_adaptive.py`.  The
image argument is replaced by its measured characteristics
(`wall_thickness`, `line_density`, `contrast`, `noise`, as produced by
`analyze_blueprint_characteristics`) and by the contour data
`cv2.findContours` extracts from it.  The adaptive config override
keeps the module-level size band except for `min_room_area_pixels`
(and `min_solidity`, which the score-based filter never reads); note
that `extract_rooms_from_hierarchy` reads the module-level band, not
the override.  Stages in order: candidate extraction with fallback,
score-based filtering, room building, scale filtering, duplicate
removal, area-descending sort, truncation to 50. -/
def detect_rooms_adaptive (wall_thickness line_density contrast noise : ℚ)
    (contours : List Contour) : List Room :=
  if contours.isEmpty then []
  else
    (sortDescBy (fun r => (r.area_pixels : ℚ))
      (remove_duplicates
        (scale_filter_step
          (build_rooms (classify_blueprint_style wall_thickness line_density contrast noise)
            contours
            (filter_by_room_characteristics_adaptive
              (candidate_indices contours
                (get_adaptive_parameters
                  (classify_blueprint_style wall_thickness line_density contrast noise)
                  wall_thickness line_density contrast).min_room_area_pixels)
              contours
              (classify_blueprint_style wall_thickness line_density contrast noise))))
        (1/2))).take 50

/-! ## Coordinate normalization (`normalizer.py`) -/

/-- A pixel bounding box `[x_min, y_min, x_max, y_max]`. -/
structure PixBox where
  x0 : ℤ
  y0 : ℤ
  x1 : ℤ
  y1 : ℤ
deriving DecidableEq

/-- A normalized bounding box, entries rounded to 4 decimals. -/
structure NormBox where
  x0 : ℚ
  y0 : ℚ
  x1 : ℚ
  y1 : ℚ
deriving DecidableEq

/-- The `bounding_box_normalized` computation of `normalize_coordinates`:
each x pixel coordinate divided by the image width and each y pixel
coordinate divided by the image height, rounded to 4 decimals. -/
def normalize_box (width height : ℤ) (b : PixBox) : NormBox :=
  { x0 := pyround ((b.x0 : ℚ) / (width : ℚ)) 4
    y0 := pyround ((b.y0 : ℚ) / (height : ℚ)) 4
    x1 := pyround ((b.x1 : ℚ) / (width : ℚ)) 4
    y1 := pyround ((b.y1 : ℚ) / (height : ℚ)) 4 }

/-- A room item as `normalize_coordinates` sees it: the pixel
`bounding_box` plus the derived fields the function writes (each
`none` until written).  Polygon, center and radius handling is
structurally identical and not modelled. -/
structure NormItem where
  bounding_box : PixBox
  bounding_box_normalized : Option NormBox
  bounding_box_pixels : Option PixBox
  area_normalized : Option ℚ
deriving DecidableEq

/-- The per-item body of `normalize_coordinates` for a room item: write
`bounding_box_normalized`, keep the pixel box in
`bounding_box_pixels`, and compute `area_normalized` from the
normalized width and height, rounded to 6 decimals. -/
def normalize_item (width height : ℤ) (it : NormItem) : NormItem :=
  let nb := normalize_box width height it.bounding_box
  { bounding_box := it.bounding_box
    bounding_box_normalized := some nb
    bounding_box_pixels := some it.bounding_box
    area_normalized := some (pyround ((nb.x1 - nb.x0) * (nb.y1 - nb.y0)) 6) }

/-- The result record of `denormalize_coordinates`:
`{x, y, width, height}` in pixels. -/
structure DenormBox where
  x : ℤ
  y : ℤ
  width : ℤ
  height : ℤ
deriving DecidableEq

/-- Function `denormalize_coordinates` from `normalizer.py`: scale the
normalized box back up and truncate with `int()`. -/
def denormalize_coordinates (nb : NormBox) (target_width target_height : ℤ) : DenormBox :=
  { x := pyint (nb.x0 * (target_width : ℚ))
    y := pyint (nb.y0 * (target_height : ℚ))
    width := pyint ((nb.x1 - nb.x0) * (target_width : ℚ))
    height := pyint ((nb.y1 - nb.y0) * (target_height : ℚ)) }

/-! ## Doorway detection (`doorway_detector.py`) -/

/-- The decision core of `DoorwayDetector._verify_partial_arc`.  The 36
perimeter samples `int(cx + r*cos θ), int(cy + r*sin θ)` for
`θ ∈ linspace(0, 2π, 36)` are supplied as `pts` (the trigonometric
sampling is geometry outside the embedding); `edge y x` is
`edge_image[y, x] > 0`.  A sample is counted when it is inside the
image bounds and on an edge; the candidate is accepted when the counted
fraction of `pts.length` lies strictly between 0.20 and 0.45. -/
def arc_edge_points (edge : ℤ → ℤ → Bool) (height width : ℤ)
    (pts : List (ℤ × ℤ)) : ℕ :=
  (pts.filter fun p =>
    decide (0 ≤ p.2 ∧ p.2 < height ∧ 0 ≤ p.1 ∧ p.1 < width) && edge p.2 p.1).length

def verify_arc_coverage (edge : ℤ → ℤ → Bool) (height width : ℤ)
    (pts : List (ℤ × ℤ)) : Bool :=
  decide ((20/100 : ℚ) < (arc_edge_points edge height width pts : ℚ) / (pts.length : ℚ)
    ∧ (arc_edge_points edge height width pts : ℚ) / (pts.length : ℚ) < 45/100)

/-- A doorway record as it exists after arc/gap detection and
deduplication: center, confidence, and the `connects_rooms` and `id`
keys that later steps may add (`none` = key absent).  Room ids are the
integer ids of `Room`; geometry fields not read by the mapping logic
are omitted. -/
structure Doorway where
  center : ℤ × ℤ
  confidence : ℚ
  connects_rooms : Option (List ℕ)
  id : Option ℕ
deriving DecidableEq

/-- Method `_map_doorways_to_rooms` of `DoorwayDetector`: for each doorway, collect
the ids of rooms whose margin-expanded bounding box contains the center
with the center near one of the four edges; doorways touching no room
get `connects_rooms = []` and halved confidence. -/
def map_doorways_to_rooms (doorways : List Doorway) (rooms : List Room) : List Doorway :=
  doorways.map fun d =>
    let cx := d.center.1
    let cy := d.center.2
    let adjacent := rooms.filterMap fun room =>
      let (x1, y1, x2, y2) := room.bounding_box
      if (x1 - 10 ≤ cx ∧ cx ≤ x2 + 10 ∧ y1 - 10 ≤ cy ∧ cy ≤ y2 + 10)
          ∧ (|cx - x1| < 10 ∨ |cx - x2| < 10 ∨ |cy - y1| < 10 ∨ |cy - y2| < 10)
      then some room.id else none
    if 0 < adjacent.length then { d with connects_rooms := some adjacent }
    else { d with connects_rooms := some [], confidence := d.confidence * (1/2) }

/-- Python truthiness of the optional `rooms` argument: `None` and the
empty list are both falsy. -/
def rooms_truthy (rooms : Option (List Room)) : Bool :=
  match rooms with
  | none => false
  | some l => !l.isEmpty

/-- Python truthiness of `d.get('connects_rooms')`: the key must be
present and hold a non-empty list. -/
def connects_truthy (d : Doorway) : Bool :=
  match d.connects_rooms with
  | some (_ :: _) => true
  | _ => false

/-- The trailing id assignment of `detect_doorways`
(`door_{idx:03d}`, modelled as the integer index). -/
def assign_ids (doorways : List Doorway) : List Doorway :=
  doorways.enum.map fun p => { p.2 with id := some p.1 }

/-- The room-dependent tail of `DoorwayDetector.detect_doorways`, from
the deduplicated doorway list onwards: optional connectivity mapping
and proximity filter, the sanity cap (rooms × per-room maximum when the
room list is truthy, else 50), and id assignment. -/
def detect_doorways_post (doorways : List Doorway) (rooms : Option (List Room))
    (require_room_proximity : Bool) (max_doorways_per_room : ℕ) : List Doorway :=
  let ds :=
    if rooms_truthy rooms then
      let mapped := map_doorways_to_rooms doorways (rooms.getD [])
      if require_room_proximity then mapped.filter connects_truthy else mapped
    else doorways
  let max_doorways : ℕ :=
    if rooms_truthy rooms then (rooms.getD []).length * max_doorways_per_room else 50
  let ds :=
    if max_doorways < ds.length then
      (sortDescBy (fun d => d.confidence) ds).take max_doorways
    else ds
  assign_ids ds

/-! ## Adaptive morphology (`preprocessing_adaptive.py`) -/

/-- The structuring elements `apply_adaptive_morphology` applies, in
stage order.  Image contents are opaque; what the claims concern is
which kernel size each stage uses.  `fill` is the hollow-room stage:
`some (kernel, iterations)` when `fill_hollow_rooms` is enabled. -/
structure MorphTrace where
  close_size : ℤ
  open_size : ℤ
  fill : Option (ℤ × ℕ)
  dilate_size : ℤ
deriving DecidableEq

/-- The kernel-size trace of `apply_adaptive_morphology`: close with
`adaptive_params.get('morph_close_size', 3)`, open with
`adaptive_params['morph_open_size']`, optionally `fill_hollow_rooms`
(whose kernel is the literal `(15, 15)` with 2 iterations), and dilate
with `adaptive_params.get('morph_dilate_size', 2)`. -/
def apply_adaptive_morphology_trace (p : AdaptiveParams) : MorphTrace :=
  { close_size := p.morph_close_size
    open_size := p.morph_open_size
    fill := if p.fill_hollow_rooms.getD false then some (15, 2) else none
    dilate_size := p.morph_dilate_size.getD 2 }

/-! ## General list helpers -/

theorem snd_mem_of_mem_enumFrom {α : Type} :
    ∀ (n : ℕ) (l : List α) (p : ℕ × α), p ∈ l.enumFrom n → p.2 ∈ l := by
  intro n l
  induction l generalizing n with
  | nil => intro p hp; simp [List.enumFrom] at hp
  | cons a t ih =>
    intro p hp
    rw [List.enumFrom] at hp
    rcases List.mem_cons.1 hp with rfl | hp'
    · exact List.mem_cons_self _ _
    · exact List.mem_cons_of_mem _ (ih (n + 1) p hp')

theorem snd_mem_of_mem_enum {α : Type} (l : List α) (p : ℕ × α) (h : p ∈ l.enum) :
    p.2 ∈ l :=
  snd_mem_of_mem_enumFrom 0 l p h

/-! ## Claim C3: style classification -/

theorem classify_cases (wt ld c n : ℚ) :
    classify_blueprint_style wt ld c n = "clean_cad"
    ∨ classify_blueprint_style wt ld c n = "detailed_cad"
    ∨ classify_blueprint_style wt ld c n = "simple_line_drawing"
    ∨ classify_blueprint_style wt ld c n = "detailed_line_drawing" := by
  unfold classify_blueprint_style
  rcases lt_or_le 8 wt with hw | hw <;> rcases lt_or_le ld (5/100) with hl | hl
  · simp [hw, hl]
  · simp [hw, hl, not_lt.2 hl]
  · simp [hw, hl, not_lt.2 hw]
  · simp [hw, hl, not_lt.2 hw, not_lt.2 hl]

/-- C3 counterexample: the claim asserts that some input classifies as
`scanned` and some as `mixed_style`; in fact the first four branches of
`classify_blueprint_style` partition all inputs (the thickness and
density comparisons are exhaustive over the rationals), so the
`scanned` and `mixed_style` branches are unreachable and no input ever
produces either. -/
theorem C3_counterexample :
    (¬ ∃ wt ld c n : ℚ, classify_blueprint_style wt ld c n = "scanned")
    ∧ (¬ ∃ wt ld c n : ℚ, classify_blueprint_style wt ld c n = "mixed_style") := by
  constructor <;>
  · rintro ⟨wt, ld, c, n, h⟩
    rcases classify_cases wt ld c n with h' | h' | h' | h' <;>
      exact absurd (h'.symm.trans h) (by decide)

/-- C3 (amended): `classify_blueprint_style` is a deterministic total
function agreeing everywhere with the spec's decision table (with its
stated precedence); wall_thickness = 10 with line_density = 0.03 gives
`clean_cad` and raising only the density to 0.08 gives `detailed_cad`;
but the `scanned` and `mixed_style` outcomes are unreachable, because
the four thickness/density cases already partition every input. -/
theorem C3_style_decision_table (wt ld c n c2 n2 : ℚ) :
    classify_blueprint_style wt ld c n = classify_spec_table wt ld c n
    ∧ classify_blueprint_style wt ld c n ≠ "scanned"
    ∧ classify_blueprint_style wt ld c n ≠ "mixed_style"
    ∧ classify_blueprint_style 10 (3/100) c2 n2 = "clean_cad"
    ∧ classify_blueprint_style 10 (8/100) c2 n2 = "detailed_cad" := by
  refine ⟨?_, ?_, ?_, ?_, ?_⟩
  · unfold classify_blueprint_style classify_spec_table
    rcases lt_or_le 8 wt with hw | hw <;> rcases lt_or_le ld (5/100) with hl | hl
    · simp [hw, hl]
    · simp [hw, hl, not_lt.2 hl]
    · simp [hw, hl, not_lt.2 hw]
    · simp [hw, hl, not_lt.2 hw, not_lt.2 hl]
  · rcases classify_cases wt ld c n with h' | h' | h' | h' <;> rw [h'] <;> decide
  · rcases classify_cases wt ld c n with h' | h' | h' | h' <;> rw [h'] <;> decide
  · unfold classify_blueprint_style
    norm_num
  · unfold classify_blueprint_style
    norm_num

/-! ## Claim C6: aspect-ratio scoring -/

/-- C6: the aspect-ratio component of the confidence score is exactly 1
for ratios up to 3, decays linearly (slope −1/10, from 1 at ratio 3 to
1/2 at ratio 8), is exactly 0 beyond ratio 8, and is monotonically
non-increasing on ratios ≥ 3.  For a bounding box with positive
dimensions the component used by `calculate_room_confidence_score` is
this function of max(w,h)/min(w,h).  The style weighting multiplies the
component by a positive constant and so does not affect any of this. -/
theorem C6_aspect_score (r1 r2 : ℚ) (w h : ℤ) :
    (r1 ≤ 3 → aspect_score_of_ratio r1 = 1)
    ∧ (3 ≤ r1 → r1 ≤ 8 → aspect_score_of_ratio r1 = 1 - (r1 - 3) / 10)
    ∧ aspect_score_of_ratio 3 = 1
    ∧ aspect_score_of_ratio 8 = 1/2
    ∧ (8 < r1 → aspect_score_of_ratio r1 = 0)
    ∧ (3 ≤ r1 → r1 ≤ r2 → aspect_score_of_ratio r2 ≤ aspect_score_of_ratio r1)
    ∧ (0 < w → 0 < h →
        box_aspect_score w h
          = aspect_score_of_ratio (((max w h : ℤ) : ℚ) / ((min w h : ℤ) : ℚ))) := by
  refine ⟨?_, ?_, ?_, ?_, ?_, ?_, ?_⟩
  · intro h1
    unfold aspect_score_of_ratio
    rw [if_pos h1]
  · intro h3 h8
    unfold aspect_score_of_ratio
    split_ifs with hA
    · have : r1 = 3 := le_antisymm hA h3
      rw [this]; norm_num
    · ring
  · norm_num [aspect_score_of_ratio]
  · norm_num [aspect_score_of_ratio]
  · intro h8
    unfold aspect_score_of_ratio
    split_ifs with hA hB
    · linarith
    · linarith
    · rfl
  · intro h3 h12
    unfold aspect_score_of_ratio
    split_ifs <;> linarith
  · intro hw hh
    unfold box_aspect_score
    rw [if_pos (lt_min hw hh)]

/-- Closed instance of `C6_aspect_score`, discharging its hypotheses at
ratios 4 ≤ 5 and the 2 × 1 bounding box. -/
theorem C6_witness :
    aspect_score_of_ratio 5 ≤ aspect_score_of_ratio 4
    ∧ box_aspect_score 2 1
        = aspect_score_of_ratio (((max (2:ℤ) 1 : ℤ) : ℚ) / ((min (2:ℤ) 1 : ℤ) : ℚ)) :=
  ⟨(C6_aspect_score 4 5 2 1).2.2.2.2.2.1 (by norm_num) (by norm_num),
   (C6_aspect_score 4 5 2 1).2.2.2.2.2.2 (by norm_num) (by norm_num)⟩

/-! ## Claim C9: morphology kernel sources -/

unseal Rat.mul Rat.inv Rat.add Rat.sub in
/-- C9 counterexample: the claim says every morphological stage's
structuring-element size comes from the Style Analyzer's ParameterSet.
In fact `get_adaptive_parameters` never emits a `morph_dilate_size`
key, so the dilate stage always runs with the hardcoded default 2, and
the hollow-fill stage's kernel is the literal `(15, 15)` regardless of
the parameters: two different derived ParameterSets yield the same
dilate and fill kernels. -/
theorem C9_counterexample :
    (get_adaptive_parameters "clean_cad" 10 (3/100) 1).morph_dilate_size = none
    ∧ (apply_adaptive_morphology_trace
        (get_adaptive_parameters "clean_cad" 10 (3/100) 1)).dilate_size = 2
    ∧ (apply_adaptive_morphology_trace
        (get_adaptive_parameters "clean_cad" 10 (3/100) 1)).fill = some (15, 2)
    ∧ (get_adaptive_parameters "detailed_cad" 9 (6/100) 1).morph_dilate_size = none
    ∧ (apply_adaptive_morphology_trace
        (get_adaptive_parameters "detailed_cad" 9 (6/100) 1)).dilate_size = 2
    ∧ (apply_adaptive_morphology_trace
        (get_adaptive_parameters "detailed_cad" 9 (6/100) 1)).fill = some (15, 2)
    ∧ get_adaptive_parameters "clean_cad" 10 (3/100) 1
        ≠ get_adaptive_parameters "detailed_cad" 9 (6/100) 1 := by
  decide

/-- C9 (amended): the close and open kernel sizes of
`apply_adaptive_morphology` do come from the analyzer's ParameterSet,
and the hollow-fill stage runs exactly when the ParameterSet enables
it; but the fill kernel is the fixed literal 15 (2 iterations) and the
dilate kernel is the fixed default 2, because no analyzer-derived
ParameterSet ever contains `morph_dilate_size`.  The trace is still a
deterministic function of the ParameterSet. -/
theorem C9_kernel_sources (style : String) (wt ld c : ℚ) :
    (apply_adaptive_morphology_trace (get_adaptive_parameters style wt ld c)).close_size
        = (get_adaptive_parameters style wt ld c).morph_close_size
    ∧ (apply_adaptive_morphology_trace (get_adaptive_parameters style wt ld c)).open_size
        = (get_adaptive_parameters style wt ld c).morph_open_size
    ∧ (apply_adaptive_morphology_trace (get_adaptive_parameters style wt ld c)).fill
        = (if (get_adaptive_parameters style wt ld c).fill_hollow_rooms.getD false
            then some (15, 2) else none)
    ∧ (get_adaptive_parameters style wt ld c).morph_dilate_size = none
    ∧ (apply_adaptive_morphology_trace (get_adaptive_parameters style wt ld c)).dilate_size
        = 2 := by
  have hnone : (get_adaptive_parameters style wt ld c).morph_dilate_size = none := by
    unfold get_adaptive_parameters
    split_ifs <;> rfl
  refine ⟨rfl, rfl, rfl, hnone, ?_⟩
  show (get_adaptive_parameters style wt ld c).morph_dilate_size.getD 2 = 2
  rw [hnone]
  rfl

/-! ## Claim C8: door-swing arc coverage -/

/-- C8: with 36 perimeter samples, the arc verifier accepts exactly
when the fraction of in-bounds on-edge samples lies strictly between
0.20 and 0.45 — equivalently when between 8 and 16 of the 36 samples
hit an edge; in particular a full circle (all 36 samples on edges) is
rejected, and coverage of 9/36 (25%) or 10/36 (≈28%) is accepted. -/
theorem C8_arc_coverage (edge : ℤ → ℤ → Bool) (height width : ℤ)
    (pts : List (ℤ × ℤ)) (h36 : pts.length = 36) :
    (verify_arc_coverage edge height width pts = true ↔
      8 ≤ arc_edge_points edge height width pts ∧ arc_edge_points edge height width pts ≤ 16)
    ∧ (arc_edge_points edge height width pts = 36 →
        verify_arc_coverage edge height width pts = false)
    ∧ (arc_edge_points edge height width pts = 9 ∨ arc_edge_points edge height width pts = 10 →
        verify_arc_coverage edge height width pts = true) := by
  set ep := arc_edge_points edge height width pts with hep
  have hiff : verify_arc_coverage edge height width pts = true ↔ (8 ≤ ep ∧ ep ≤ 16) := by
    unfold verify_arc_coverage
    rw [← hep, h36, decide_eq_true_iff]
    constructor
    · rintro ⟨h1, h2⟩
      rw [div_lt_div_iff (by norm_num) (by norm_num)] at h1
      rw [div_lt_div_iff (by norm_num) (by norm_num)] at h2
      push_cast at h1 h2
      constructor
      · have h : ((720 : ℕ) : ℚ) < ((ep * 100 : ℕ) : ℚ) := by push_cast; linarith
        have := Nat.cast_lt (α := ℚ) |>.1 h
        omega
      · have h : ((ep * 100 : ℕ) : ℚ) < ((1620 : ℕ) : ℚ) := by push_cast; linarith
        have := Nat.cast_lt (α := ℚ) |>.1 h
        omega
    · rintro ⟨h1, h2⟩
      constructor
      · rw [div_lt_div_iff (by norm_num) (by norm_num)]
        have h : ((720 : ℕ) : ℚ) < ((ep * 100 : ℕ) : ℚ) := Nat.cast_lt.2 (by omega)
        push_cast at h
        push_cast
        linarith
      · rw [div_lt_div_iff (by norm_num) (by norm_num)]
        have h : ((ep * 100 : ℕ) : ℚ) < ((1620 : ℕ) : ℚ) := Nat.cast_lt.2 (by omega)
        push_cast at h
        push_cast
        linarith
  refine ⟨hiff, ?_, ?_⟩
  · intro h
    rw [← Bool.not_eq_true]
    intro hc
    have := hiff.1 hc
    omega
  · intro h
    exact hiff.2 (by omega)

def exEdgeC8 : ℤ → ℤ → Bool := fun _ x => decide (x < 9)

def exPtsC8 : List (ℤ × ℤ) := (List.range 36).map fun i => ((i : ℤ), 0)

/-- Closed instance of `C8_arc_coverage`: on 36 concrete samples of
which exactly 9 are on edges, the verifier accepts. -/
theorem C8_witness :
    verify_arc_coverage exEdgeC8 100 100 exPtsC8 = true :=
  (C8_arc_coverage exEdgeC8 100 100 exPtsC8 (by decide)).2.2 (Or.inl (by decide))

/-! ## Claim C5: scale-context outlier filter -/

unseal Rat.mul Rat.inv Rat.add Rat.sub in
/-- C5: the scale filter runs only when at least 4 rooms are present
(otherwise the list passes through unchanged), and when it runs it
drops exactly the rooms whose area is below
`max(median − 2·std, 0.3·median)` AND below the outlier threshold
`0.25·median`; every other room is kept.  Because the room areas are
non-negative, the conjunction collapses to the `0.25·median` test the
code performs — the equivalence holds for every value of the standard
deviation. -/
theorem C5_scale_filter (rooms : List Room) (std : ℚ)
    (hpos : ∀ r ∈ rooms, 0 ≤ r.area_pixels) :
    scale_filter_step rooms =
      if 4 ≤ rooms.length then
        rooms.filter fun r =>
          decide (¬ (((r.area_pixels : ℚ) <
              min_reasonable_area (npMedian (rooms.map fun s => (s.area_pixels : ℚ))) std)
            ∧ ((r.area_pixels : ℚ) <
              outlier_threshold (npMedian (rooms.map fun s => (s.area_pixels : ℚ))))))
      else rooms := by
  have hmed : 0 ≤ npMedian (rooms.map fun s => (s.area_pixels : ℚ)) := by
    apply npMedian_nonneg
    intro x hx
    rcases List.mem_map.1 hx with ⟨r, hr, rfl⟩
    exact_mod_cast hpos r hr
  unfold scale_filter_step
  by_cases hlen : 3 < rooms.length
  · rw [if_pos hlen, if_pos (by omega)]
    apply List.filter_congr
    intro r hr
    rw [decide_eq_decide]
    set M := npMedian (rooms.map fun s => (s.area_pixels : ℚ)) with hM
    unfold outlier_threshold min_reasonable_area
    constructor
    · rintro hth ⟨h1, h2⟩
      linarith
    · intro hno
      by_contra hc
      push_neg at hc
      have h2 : (r.area_pixels : ℚ) < M * (25/100) := hc
      have h1 : (r.area_pixels : ℚ) < max (M - 2 * std) (M * (3/10)) := by
        have : (r.area_pixels : ℚ) < M * (3/10) := by nlinarith
        exact lt_of_lt_of_le this (le_max_right _ _)
      exact hno ⟨h1, h2⟩
  · rw [if_neg hlen, if_neg (by omega)]

def exRoomsC5 : List Room :=
  [⟨0, (0, 0, 40, 25), 9/10, "room", 1000⟩,
   ⟨1, (50, 0, 90, 25), 9/10, "room", 1000⟩,
   ⟨2, (0, 30, 40, 55), 9/10, "room", 1000⟩,
   ⟨3, (50, 30, 55, 32), 1/2, "room", 10⟩]

unseal Rat.mul Rat.inv Rat.add Rat.sub in
/-- Closed instance of `C5_scale_filter` on four concrete rooms, one of
which (area 10, against median 1000) is an outlier. -/
theorem C5_witness :
    (∀ r ∈ exRoomsC5, 0 ≤ r.area_pixels)
    ∧ scale_filter_step exRoomsC5 =
        (if 4 ≤ exRoomsC5.length then
          exRoomsC5.filter fun r =>
            decide (¬ (((r.area_pixels : ℚ) <
                min_reasonable_area (npMedian (exRoomsC5.map fun s => (s.area_pixels : ℚ))) 1)
              ∧ ((r.area_pixels : ℚ) <
                outlier_threshold (npMedian (exRoomsC5.map fun s => (s.area_pixels : ℚ))))))
        else exRoomsC5) :=
  ⟨by decide, C5_scale_filter exRoomsC5 1 (by decide)⟩

/-! ## Claim C10: doorway detection with an empty room list -/

/-- C10: calling the room-dependent tail of `detect_doorways` with an
empty room list is identical to calling it with no room list at all
(Python truthiness makes `[]` and `None` take the same paths: no
connectivity mapping, no confidence halving, no proximity drop, and
the sanity cap falls back to the fixed 50); consequently every
returned doorway keeps its original center, confidence and (absent)
`connects_rooms` field. -/
theorem C10_empty_rooms (doorways : List Doorway) (rp : Bool) (m : ℕ) :
    detect_doorways_post doorways (some []) rp m = detect_doorways_post doorways none rp m
    ∧ ∀ x ∈ detect_doorways_post doorways (some []) rp m,
        ∃ y ∈ doorways, x.center = y.center ∧ x.confidence = y.confidence
          ∧ x.connects_rooms = y.connects_rooms := by
  constructor
  · rfl
  · intro x hx
    unfold detect_doorways_post at hx
    simp only [rooms_truthy, List.isEmpty_nil, Bool.not_true, if_false, Bool.false_eq_true] at hx
    have hmem : ∀ l : List Doorway, x ∈ assign_ids l →
        ∃ y ∈ l, x.center = y.center ∧ x.confidence = y.confidence
          ∧ x.connects_rooms = y.connects_rooms := by
      intro l hl
      unfold assign_ids at hl
      rcases List.mem_map.1 hl with ⟨p, hp, rfl⟩
      exact ⟨p.2, snd_mem_of_mem_enum l p hp, rfl, rfl, rfl⟩
    by_cases hcap : 50 < doorways.length
    · rw [if_pos hcap] at hx
      rcases hmem _ hx with ⟨y, hy, h1, h2, h3⟩
      refine ⟨y, ?_, h1, h2, h3⟩
      have := List.take_subset 50 (sortDescBy (fun d => d.confidence) doorways) hy
      exact (mem_sortDescBy _ _ _).1 this
    · rw [if_neg hcap] at hx
      exact hmem _ hx

def exDoorsC10 : List Doorway :=
  [⟨(5, 5), 8/10, none, none⟩, ⟨(40, 40), 1/2, none, none⟩]

/-- Closed instance of `C10_empty_rooms` at a concrete doorway list. -/
theorem C10_witness :
    detect_doorways_post exDoorsC10 (some []) true 6
        = detect_doorways_post exDoorsC10 none true 6
    ∧ ∀ x ∈ detect_doorways_post exDoorsC10 (some []) true 6,
        ∃ y ∈ exDoorsC10, x.center = y.center ∧ x.confidence = y.confidence
          ∧ x.connects_rooms = y.connects_rooms :=
  C10_empty_rooms exDoorsC10 true 6

/-! ## Claim C2: duplicate removal -/

theorem iou_sweep_subset (t : ℚ) :
    ∀ (l kept : List Room), ∀ x ∈ iou_sweep t kept l, x ∈ l := by
  intro l
  induction l with
  | nil =>
    intro kept x hx
    rw [iou_sweep] at hx
    exact absurd hx (List.not_mem_nil x)
  | cons r rest ih =>
    intro kept x hx
    rw [iou_sweep] at hx
    split_ifs at hx with hc
    · exact List.mem_cons_of_mem _ (ih kept x hx)
    · rcases List.mem_cons.1 hx with rfl | hx'
      · exact List.mem_cons_self _ _
      · exact List.mem_cons_of_mem _ (ih (kept ++ [r]) x hx')

theorem iou_sweep_kept_le (t : ℚ) :
    ∀ (l kept : List Room), ∀ x ∈ iou_sweep t kept l, ∀ k ∈ kept,
      calculate_iou k.bounding_box x.bounding_box ≤ t := by
  intro l
  induction l with
  | nil =>
    intro kept x hx
    rw [iou_sweep] at hx
    exact absurd hx (List.not_mem_nil x)
  | cons r rest ih =>
    intro kept x hx k hk
    rw [iou_sweep] at hx
    split_ifs at hx with hc
    · exact ih kept x hx k hk
    · rcases List.mem_cons.1 hx with rfl | hx'
      · have hall := List.any_eq_false.mp (Bool.not_eq_true _ |>.mp hc) k hk
        have : ¬ t < calculate_iou k.bounding_box x.bounding_box := by
          simpa using hall
        exact le_of_not_lt this
      · exact ih (kept ++ [r]) x hx' k (List.mem_append_left _ hk)

theorem iou_sweep_pairwise (t : ℚ) :
    ∀ (l kept : List Room),
      (iou_sweep t kept l).Pairwise
        (fun a b => calculate_iou a.bounding_box b.bounding_box ≤ t) := by
  intro l
  induction l with
  | nil =>
    intro kept
    rw [iou_sweep]
    exact List.Pairwise.nil
  | cons r rest ih =>
    intro kept
    rw [iou_sweep]
    split_ifs with hc
    · exact ih kept
    · refine List.Pairwise.cons ?_ (ih (kept ++ [r]))
      intro b hb
      exact iou_sweep_kept_le t rest (kept ++ [r]) b hb r
        (List.mem_append_right _ (List.mem_singleton_self r))

theorem iou_sweep_dropped (t : ℚ) :
    ∀ (l kept : List Room),
      l.Sorted (fun a b => b.confidence_score ≤ a.confidence_score) →
      (∀ k ∈ kept, ∀ y ∈ l, y.confidence_score ≤ k.confidence_score) →
      ∀ x ∈ l, x ∉ iou_sweep t kept l →
        ∃ k, (k ∈ kept ∨ k ∈ iou_sweep t kept l)
          ∧ t < calculate_iou k.bounding_box x.bounding_box
          ∧ x.confidence_score ≤ k.confidence_score := by
  intro l
  induction l with
  | nil =>
    intro kept _ _ x hx _
    exact absurd hx (List.not_mem_nil x)
  | cons r rest ih =>
    intro kept hsort hconf x hx hnx
    rcases List.pairwise_cons.1 hsort with ⟨hr, hrest⟩
    rw [iou_sweep] at hnx ⊢
    split_ifs at hnx ⊢ with hc
    · rcases List.mem_cons.1 hx with rfl | hx'
      · rcases List.any_eq_true.mp hc with ⟨k, hk, hki⟩
        refine ⟨k, Or.inl hk, by simpa using hki, hconf k hk x (List.mem_cons_self _ _)⟩
      · exact ih kept hrest
          (fun k hk y hy => hconf k hk y (List.mem_cons_of_mem _ hy)) x hx' hnx
    · rcases List.mem_cons.1 hx with rfl | hx'
      · exact absurd (List.mem_cons_self _ _) hnx
      · have hnx' : x ∉ iou_sweep t (kept ++ [r]) rest :=
          fun hcontra => hnx (List.mem_cons_of_mem _ hcontra)
        have hconf' : ∀ k ∈ kept ++ [r], ∀ y ∈ rest, y.confidence_score ≤ k.confidence_score := by
          intro k hk y hy
          rcases List.mem_append.1 hk with hk' | hk'
          · exact hconf k hk' y (List.mem_cons_of_mem _ hy)
          · rw [List.mem_singleton.1 hk']
            exact hr y hy
        rcases ih (kept ++ [r]) hrest hconf' x hx' hnx' with ⟨k, hkor, h1, h2⟩
        refine ⟨k, ?_, h1, h2⟩
        rcases hkor with hk' | hk'
        · rcases List.mem_append.1 hk' with hk'' | hk''
          · exact Or.inl hk''
          · rw [List.mem_singleton.1 hk'']
            exact Or.inr (List.mem_cons_self _ _)
        · exact Or.inr (List.mem_cons_of_mem _ hk')

/-- C2: after `remove_duplicates` with threshold `t`, every pair of
returned rooms has bounding-box IoU ≤ `t`; the sweep runs on the
confidence-descending order, and every dropped room overlaps some kept
room above `t` whose confidence is at least its own (i.e. of two
conflicting candidates the lower-confidence one is dropped). -/
theorem C2_remove_duplicates (rooms : List Room) (t : ℚ) :
    (remove_duplicates rooms t).Pairwise
      (fun a b => calculate_iou a.bounding_box b.bounding_box ≤ t)
    ∧ ∀ x ∈ rooms, x ∉ remove_duplicates rooms t →
        ∃ k ∈ remove_duplicates rooms t,
          t < calculate_iou k.bounding_box x.bounding_box
          ∧ x.confidence_score ≤ k.confidence_score := by
  unfold remove_duplicates
  by_cases hlen : rooms.length ≤ 1
  · rw [if_pos hlen]
    constructor
    · match rooms, hlen with
      | [], _ => exact List.Pairwise.nil
      | [a], _ => exact List.pairwise_singleton _ _
    · intro x hx hnx
      exact absurd hx hnx
  · rw [if_neg hlen]
    constructor
    · exact iou_sweep_pairwise t _ []
    · intro x hx hnx
      have hx' : x ∈ sortDescBy (fun r => r.confidence_score) rooms :=
        (mem_sortDescBy _ _ _).2 hx
      rcases iou_sweep_dropped t _ []
          (sorted_sortDescBy (fun r => r.confidence_score) rooms)
          (by intro k hk; exact absurd hk (List.not_mem_nil k)) x hx' hnx with
        ⟨k, hkor, h1, h2⟩
      rcases hkor with hk | hk
      · exact absurd hk (List.not_mem_nil k)
      · exact ⟨k, hk, h1, h2⟩

def roomA_C2 : Room := ⟨0, (0, 0, 100, 100), 9/10, "room", 10000⟩

def roomB_C2 : Room := ⟨1, (0, 0, 100, 90), 4/10, "room", 9000⟩

def exRoomsC2 : List Room := [roomA_C2, roomB_C2]

unseal Rat.mul Rat.inv Rat.add Rat.sub in
/-- Closed instance of `C2_remove_duplicates`: of two rooms with IoU
0.9 > 0.5, the lower-confidence one is dropped in favour of a kept
higher-confidence overlapping room. -/
theorem C2_witness :
    roomB_C2 ∈ exRoomsC2 ∧ roomB_C2 ∉ remove_duplicates exRoomsC2 (1/2)
    ∧ ∃ k ∈ remove_duplicates exRoomsC2 (1/2),
        1/2 < calculate_iou k.bounding_box roomB_C2.bounding_box
        ∧ roomB_C2.confidence_score ≤ k.confidence_score :=
  ⟨by decide, by decide,
   (C2_remove_duplicates exRoomsC2 (1/2)).2 roomB_C2 (by decide) (by decide)⟩

/-! ## Claim C4: wall-thickness estimation -/

theorem filterMap_guard {α β : Type} (p : α → Prop) [DecidablePred p] (f : α → β)
    (l : List α) :
    (l.filterMap fun a => if p a then some (f a) else none)
      = (l.filter fun a => decide (p a)).map f := by
  induction l with
  | nil => rfl
  | cons a l ih =>
    by_cases h : p a <;> simp [List.filterMap_cons, List.filter_cons, h, ih]

def exRatiosC4 : ℕ → ℚ := fun i =>
  if i ≤ 1 then 1/25 else if i = 2 then 3/50 else if i = 3 then 1/10 else 1/5

def exEdgeContoursC4 : List EdgeContour := [⟨10, 10⟩]

unseal Rat.mul Rat.inv Rat.add Rat.sub in
/-- C4 counterexample: the claim says the estimate is the FIRST
in-band dilation iteration count times 3.  On a run whose fill ratios
enter the band (0.05, 0.15) at iterations 2 and 3 (first in-band
iteration 2, so the claim predicts 2 × 3 = 6), the code averages over
all in-band iterations and returns (6 + 9)/2 = 7.5. -/
theorem C4_counterexample :
    ¬ (5/100 < exRatiosC4 1 ∧ exRatiosC4 1 < 15/100)
    ∧ (5/100 < exRatiosC4 2 ∧ exRatiosC4 2 < 15/100)
    ∧ (5/100 < exRatiosC4 3 ∧ exRatiosC4 3 < 15/100)
    ∧ estimate_wall_thickness exRatiosC4 exEdgeContoursC4 = 15/2
    ∧ (15/2 : ℚ) ≠ 2 * 3 := by
  refine ⟨by decide, by decide, by decide, by decide, by decide⟩

/-- C4 (amended): `estimate_wall_thickness` returns 5.0 when the edge
map has no contours; otherwise, when some dilation iteration in 1..14
has fill ratio inside (0.05, 0.15), it returns the MEAN of (iteration ×
3 px) over ALL in-band iterations — not the first in-band iteration
times 3; and when no iteration is in-band it returns the median of the
smaller bounding-rectangle dimension over the first 50 edge contours. -/
theorem C4_thickness (ratios : ℕ → ℚ) (contours : List EdgeContour) :
    (contours = [] → estimate_wall_thickness ratios contours = 5)
    ∧ (contours ≠ [] →
        ((List.range' 1 14).filter fun i =>
          decide (5/100 < ratios i ∧ ratios i < 15/100)) ≠ [] →
        estimate_wall_thickness ratios contours =
          npMean (((List.range' 1 14).filter fun i =>
            decide (5/100 < ratios i ∧ ratios i < 15/100)).map fun i : ℕ => (i : ℚ) * 3))
    ∧ (contours ≠ [] →
        ((List.range' 1 14).filter fun i =>
          decide (5/100 < ratios i ∧ ratios i < 15/100)) = [] →
        estimate_wall_thickness ratios contours =
          npMedian ((contours.take 50).map fun c => ((min c.w c.h : ℤ) : ℚ))) := by
  have hguard : ((List.range' 1 14).filterMap fun i =>
      if 5/100 < ratios i ∧ ratios i < 15/100 then some ((i : ℚ) * 3) else none)
      = ((List.range' 1 14).filter fun i =>
          decide (5/100 < ratios i ∧ ratios i < 15/100)).map fun i : ℕ => (i : ℚ) * 3 :=
    filterMap_guard _ _ _
  refine ⟨?_, ?_, ?_⟩
  · intro h
    subst h
    rfl
  · intro hne hband
    unfold estimate_wall_thickness
    rw [if_neg (by simpa [List.isEmpty_iff] using hne), hguard]
    rw [if_neg (by simp only [List.isEmpty_iff, List.map_eq_nil_iff]; exact hband)]
  · intro hne hband
    unfold estimate_wall_thickness
    rw [if_neg (by simpa [List.isEmpty_iff] using hne), hguard]
    rw [if_pos (by simp only [List.isEmpty_iff, List.map_eq_nil_iff]; exact hband)]
    have hwne : ((contours.take 50).map fun c => ((min c.w c.h : ℤ) : ℚ)) ≠ [] := by
      simp only [ne_eq, List.map_eq_nil_iff, List.take_eq_nil_iff]
      push_neg
      exact ⟨by norm_num, hne⟩
    rw [if_neg (by simpa [List.isEmpty_iff] using hwne)]

/-- Closed instance of `C4_thickness`: with no edge contours the
estimate is the 5.0 default. -/
theorem C4_witness : estimate_wall_thickness exRatiosC4 [] = 5 :=
  (C4_thickness exRatiosC4 []).1 rfl

/-! ## Claim C7: coordinate normalization round trip -/

theorem pyround_scale_close (W : ℤ) (hW : 0 < W) (hW2 : W ≤ 10000) (z : ℤ) :
    |pyround ((z : ℚ) / (W : ℚ)) 4 * (W : ℚ) - (z : ℚ)| ≤ 1/2 := by
  have hWQ : (0 : ℚ) < (W : ℚ) := by exact_mod_cast hW
  have hWQ2 : (W : ℚ) ≤ 10000 := by exact_mod_cast hW2
  have h := abs_pyround_sub ((z : ℚ) / (W : ℚ)) 4
  have hrw : pyround ((z : ℚ) / (W : ℚ)) 4 * (W : ℚ) - (z : ℚ)
      = (pyround ((z : ℚ) / (W : ℚ)) 4 - (z : ℚ) / (W : ℚ)) * (W : ℚ) := by
    field_simp
  rw [hrw, abs_mul, abs_of_pos hWQ]
  have hbound : (1 : ℚ) / (2 * 10 ^ 4) = 1/20000 := by norm_num
  rw [hbound] at h
  nlinarith [abs_nonneg (pyround ((z : ℚ) / (W : ℚ)) 4 - (z : ℚ) / (W : ℚ))]

theorem pyround_scale_diff_close (W : ℤ) (hW : 0 < W) (hW2 : W ≤ 10000) (z0 z1 : ℤ) :
    |(pyround ((z1 : ℚ) / (W : ℚ)) 4 - pyround ((z0 : ℚ) / (W : ℚ)) 4) * (W : ℚ)
      - ((z1 : ℚ) - (z0 : ℚ))| ≤ 1 := by
  have hWQ : (0 : ℚ) < (W : ℚ) := by exact_mod_cast hW
  have h0 := pyround_scale_close W hW hW2 z0
  have h1 := pyround_scale_close W hW hW2 z1
  have hrw : (pyround ((z1 : ℚ) / (W : ℚ)) 4 - pyround ((z0 : ℚ) / (W : ℚ)) 4) * (W : ℚ)
      - ((z1 : ℚ) - (z0 : ℚ))
      = (pyround ((z1 : ℚ) / (W : ℚ)) 4 * (W : ℚ) - (z1 : ℚ))
        - (pyround ((z0 : ℚ) / (W : ℚ)) 4 * (W : ℚ) - (z0 : ℚ)) := by ring
  rw [hrw]
  calc |(pyround ((z1 : ℚ) / (W : ℚ)) 4 * (W : ℚ) - (z1 : ℚ))
        - (pyround ((z0 : ℚ) / (W : ℚ)) 4 * (W : ℚ) - (z0 : ℚ))|
      ≤ |pyround ((z1 : ℚ) / (W : ℚ)) 4 * (W : ℚ) - (z1 : ℚ)|
        + |pyround ((z0 : ℚ) / (W : ℚ)) 4 * (W : ℚ) - (z0 : ℚ)| := abs_sub _ _
    _ ≤ 1 := by linarith

unseal Rat.mul Rat.inv Rat.add Rat.sub in
/-- C7 counterexample: the claim's ±1 px round trip is quantified over
every pixel box and its original dimensions.  At image width 100000,
the pixel x-coordinate 12346 normalizes to round(0.12346, 4) = 0.1235
and denormalizes to 12350 — off by 4 px. -/
theorem C7_counterexample :
    (denormalize_coordinates (normalize_box 100000 1000 ⟨12346, 0, 12446, 500⟩)
      100000 1000).x = 12350
    ∧ ¬ |(12350 : ℤ) - 12346| ≤ 1 := by
  refine ⟨by decide, by decide⟩

unseal Rat.mul Rat.inv Rat.add Rat.sub in
/-- C7 (amended): every `bounding_box_normalized` entry is the pixel
coordinate divided by the matching image dimension rounded to 4
decimals, and lies in [0, 1] for in-bounds coordinates; applying
`normalize_coordinates` to its own output with the same dimensions
reproduces the same derived fields (it recomputes them from the
unchanged pixel `bounding_box`); and the denormalize round trip
recovers x, y, width and height within ±1 px provided the image
dimensions are at most 10000 px (the pipeline works at ≤ 2000 px; for
larger dimensions the 4-decimal rounding can lose more than 1 px, as
the counterexample shows). -/
theorem C7_normalize (W H : ℤ) (b : PixBox) (it : NormItem)
    (hW : 0 < W) (hH : 0 < H) :
    (normalize_box W H b
      = ⟨pyround ((b.x0 : ℚ) / (W : ℚ)) 4, pyround ((b.y0 : ℚ) / (H : ℚ)) 4,
         pyround ((b.x1 : ℚ) / (W : ℚ)) 4, pyround ((b.y1 : ℚ) / (H : ℚ)) 4⟩)
    ∧ (0 ≤ b.x0 → b.x0 ≤ W →
        0 ≤ (normalize_box W H b).x0 ∧ (normalize_box W H b).x0 ≤ 1)
    ∧ (0 ≤ b.y0 → b.y0 ≤ H →
        0 ≤ (normalize_box W H b).y0 ∧ (normalize_box W H b).y0 ≤ 1)
    ∧ (0 ≤ b.x1 → b.x1 ≤ W →
        0 ≤ (normalize_box W H b).x1 ∧ (normalize_box W H b).x1 ≤ 1)
    ∧ (0 ≤ b.y1 → b.y1 ≤ H →
        0 ≤ (normalize_box W H b).y1 ∧ (normalize_box W H b).y1 ≤ 1)
    ∧ normalize_item W H (normalize_item W H it) = normalize_item W H it
    ∧ (W ≤ 10000 → H ≤ 10000 →
        0 ≤ b.x0 → 0 ≤ b.y0 →
        |(denormalize_coordinates (normalize_box W H b) W H).x - b.x0| ≤ 1
        ∧ |(denormalize_coordinates (normalize_box W H b) W H).y - b.y0| ≤ 1
        ∧ |(denormalize_coordinates (normalize_box W H b) W H).width - (b.x1 - b.x0)| ≤ 1
        ∧ |(denormalize_coordinates (normalize_box W H b) W H).height - (b.y1 - b.y0)| ≤ 1) := by
  have hWQ : (0 : ℚ) < (W : ℚ) := by exact_mod_cast hW
  have hHQ : (0 : ℚ) < (H : ℚ) := by exact_mod_cast hH
  have hbounds : ∀ (D z : ℤ), 0 < D → 0 ≤ z → z ≤ D →
      0 ≤ pyround ((z : ℚ) / (D : ℚ)) 4 ∧ pyround ((z : ℚ) / (D : ℚ)) 4 ≤ 1 := by
    intro D z hD h0 h1
    have hDQ : (0 : ℚ) < (D : ℚ) := by exact_mod_cast hD
    constructor
    · exact pyround_nonneg _ _ (by positivity)
    · apply pyround_le_one
      rw [div_le_one hDQ]
      exact_mod_cast h1
  refine ⟨rfl, hbounds W b.x0 hW, hbounds H b.y0 hH, hbounds W b.x1 hW, hbounds H b.y1 hH,
    rfl, ?_⟩
  intro hW2 hH2 hx0 hy0
  have hx0Q : (0 : ℚ) ≤ (b.x0 : ℚ) := by exact_mod_cast hx0
  have hy0Q : (0 : ℚ) ≤ (b.y0 : ℚ) := by exact_mod_cast hy0
  refine ⟨?_, ?_, ?_, ?_⟩
  · have hclose := pyround_scale_close W hW hW2 b.x0
    have h := pyint_close (pyround ((b.x0 : ℚ) / (W : ℚ)) 4 * (W : ℚ)) b.x0 (by linarith [hclose])
    simpa [denormalize_coordinates, normalize_box] using h
  · have hclose := pyround_scale_close H hH hH2 b.y0
    have h := pyint_close (pyround ((b.y0 : ℚ) / (H : ℚ)) 4 * (H : ℚ)) b.y0 (by linarith [hclose])
    simpa [denormalize_coordinates, normalize_box] using h
  · have hclose := pyround_scale_diff_close W hW hW2 b.x0 b.x1
    have h := pyint_close
      ((pyround ((b.x1 : ℚ) / (W : ℚ)) 4 - pyround ((b.x0 : ℚ) / (W : ℚ)) 4) * (W : ℚ))
      (b.x1 - b.x0) (by push_cast; push_cast at hclose; linarith [hclose])
    simpa [denormalize_coordinates, normalize_box] using h
  · have hclose := pyround_scale_diff_close H hH hH2 b.y0 b.y1
    have h := pyint_close
      ((pyround ((b.y1 : ℚ) / (H : ℚ)) 4 - pyround ((b.y0 : ℚ) / (H : ℚ)) 4) * (H : ℚ))
      (b.y1 - b.y0) (by push_cast; push_cast at hclose; linarith [hclose])
    simpa [denormalize_coordinates, normalize_box] using h

unseal Rat.mul Rat.inv Rat.add Rat.sub in
/-- Closed instance of `C7_normalize` at a 2000 × 1500 image. -/
theorem C7_witness :
    |(denormalize_coordinates (normalize_box 2000 1500 ⟨100, 200, 300, 400⟩) 2000 1500).x
      - 100| ≤ 1
    ∧ |(denormalize_coordinates (normalize_box 2000 1500 ⟨100, 200, 300, 400⟩) 2000 1500).width
      - (300 - 100)| ≤ 1 := by
  have h := (C7_normalize 2000 1500 ⟨100, 200, 300, 400⟩ ⟨⟨0, 0, 0, 0⟩, none, none, none⟩
    (by norm_num) (by norm_num)).2.2.2.2.2.2
    (by norm_num) (by norm_num) (by norm_num) (by norm_num)
  exact ⟨h.1, h.2.2.1⟩

/-! ## Claim C1: room-area bands -/

theorem mem_hierarchy_area (contours : List Contour) (idx : ℕ)
    (h : idx ∈ extract_rooms_from_hierarchy contours) :
    ∃ c, contours.get? idx = some c
      ∧ ((global_min_room_area_pixels : ℤ) : ℚ) ≤ c.area
      ∧ c.area ≤ ((global_max_room_area_pixels : ℤ) : ℚ) := by
  unfold extract_rooms_from_hierarchy at h
  have h2 : hierarchy_candidate contours idx = true := (List.mem_filter.1 h).2
  unfold hierarchy_candidate at h2
  cases hc : contours.get? idx with
  | none =>
    rw [hc] at h2
    exact absurd h2 (by simp)
  | some c =>
    rw [hc] at h2
    dsimp only at h2
    refine ⟨c, rfl, ?_, ?_⟩
    · split_ifs at h2 with hp hmin hmax
      exact le_of_not_lt hmin
    · split_ifs at h2 with hp hmin hmax
      exact le_of_not_lt hmax

theorem mem_size_area (contours : List Contour) (mn mx : ℤ) (idx : ℕ)
    (h : idx ∈ extract_rooms_by_size contours mn mx) :
    ∃ c, contours.get? idx = some c ∧ ((mn : ℤ) : ℚ) < c.area ∧ c.area < ((mx : ℤ) : ℚ) := by
  unfold extract_rooms_by_size at h
  have h2 := (List.mem_filter.1 h).2
  cases hc : contours.get? idx with
  | none =>
    rw [hc] at h2
    exact absurd h2 (by simp)
  | some c =>
    rw [hc] at h2
    dsimp only at h2
    exact ⟨c, rfl, of_decide_eq_true h2⟩

theorem mem_candidate_indices (contours : List Contour) (mn : ℤ) (idx : ℕ)
    (h : idx ∈ candidate_indices contours mn) :
    idx ∈ extract_rooms_from_hierarchy contours
    ∨ idx ∈ extract_rooms_by_size contours mn global_max_room_area_pixels := by
  unfold candidate_indices at h
  split_ifs at h with h3
  · have := List.dedup_subset _ h
    exact List.mem_append.1 this
  · exact Or.inl h

theorem mem_build_rooms (style : String) (contours : List Contour) (valid : List ℕ)
    (r : Room) (h : r ∈ build_rooms style contours valid) :
    ∃ idx ∈ valid, ∃ c, contours.get? idx = some c ∧ r.area_pixels = pyint c.area := by
  unfold build_rooms at h
  rcases List.mem_filterMap.1 h with ⟨p, hp, hmap⟩
  rcases Option.map_eq_some'.1 hmap with ⟨c, hc, hr⟩
  exact ⟨p.2, snd_mem_of_mem_enum valid p hp, c, hc, by rw [← hr]; rfl⟩

theorem scale_filter_step_subset (rooms : List Room) (r : Room)
    (h : r ∈ scale_filter_step rooms) : r ∈ rooms := by
  unfold scale_filter_step at h
  split_ifs at h with h3
  · exact List.mem_of_mem_filter h
  · exact h

theorem remove_duplicates_subset (rooms : List Room) (t : ℚ) (r : Room)
    (h : r ∈ remove_duplicates rooms t) : r ∈ rooms := by
  unfold remove_duplicates at h
  split_ifs at h with h1
  · exact h
  · have := iou_sweep_subset t _ [] r h
    exact (mem_sortDescBy _ _ _).1 this

/-- C1 (amended): every Room returned by `detect_rooms_adaptive` has
`area_pixels` between `min(5000, adaptive_min)` and 500000 — but the
two candidate sources are checked against DIFFERENT lower bounds: the
hierarchy path uses the module-level `DETECTION_CONFIG` band
`[5000, 500000]` (not the ParameterSet band the claim asserts), while
only the flat size-based fallback uses the adaptive
`min_room_area_pixels` (strictly).  The area bound is taken at the
moment of candidate acceptance and is preserved by all later filters. -/
theorem C1_area_band (wall_thickness line_density contrast noise : ℚ)
    (contours : List Contour) (hpos : ∀ c ∈ contours, 0 ≤ c.area) :
    ∀ r ∈ detect_rooms_adaptive wall_thickness line_density contrast noise contours,
      min global_min_room_area_pixels
        (get_adaptive_parameters
          (classify_blueprint_style wall_thickness line_density contrast noise)
          wall_thickness line_density contrast).min_room_area_pixels ≤ r.area_pixels
      ∧ r.area_pixels ≤ global_max_room_area_pixels := by
  intro r hr
  unfold detect_rooms_adaptive at hr
  split_ifs at hr with hemp
  · exact absurd hr (List.not_mem_nil r)
  · have hr1 := List.take_subset _ _ hr
    have hr2 := (mem_sortDescBy _ _ _).1 hr1
    have hr3 := remove_duplicates_subset _ _ _ hr2
    have hr4 := scale_filter_step_subset _ _ hr3
    rcases mem_build_rooms _ _ _ _ hr4 with ⟨idx, hidx, c, hc, harea⟩
    have hidx' : idx ∈ candidate_indices contours
        (get_adaptive_parameters
          (classify_blueprint_style wall_thickness line_density contrast noise)
          wall_thickness line_density contrast).min_room_area_pixels := by
      unfold filter_by_room_characteristics_adaptive at hidx
      exact List.mem_of_mem_filter hidx
    have hcpos : (0 : ℚ) ≤ c.area := by
      have hcmem : c ∈ contours := List.get?_mem hc
      exact hpos c hcmem
    have hfloor : r.area_pixels = ⌊c.area⌋ := by
      rw [harea, pyint_eq_floor_of_nonneg _ hcpos]
    rcases mem_candidate_indices _ _ _ hidx' with hh | hs
    · rcases mem_hierarchy_area _ _ hh with ⟨c', hc', hlo, hhi⟩
      rw [hc] at hc'
      cases hc'
      constructor
      · refine le_trans (min_le_left _ _) ?_
        rw [hfloor]
        exact Int.le_floor.2 hlo
      · rw [hfloor]
        calc ⌊c.area⌋ ≤ ⌊((global_max_room_area_pixels : ℤ) : ℚ)⌋ := Int.floor_mono hhi
          _ = global_max_room_area_pixels := Int.floor_intCast _
    · rcases mem_size_area _ _ _ _ hs with ⟨c', hc', hlo, hhi⟩
      rw [hc] at hc'
      cases hc'
      constructor
      · refine le_trans (min_le_right _ _) ?_
        rw [hfloor]
        exact Int.le_floor.2 (le_of_lt hlo)
      · rw [hfloor]
        calc ⌊c.area⌋ ≤ ⌊((global_max_room_area_pixels : ℤ) : ℚ)⌋ :=
              Int.floor_mono (le_of_lt hhi)
          _ = global_max_room_area_pixels := Int.floor_intCast _

def exContoursC1 : List Contour :=
  [⟨100000, 0, 0, 400, 400, 100000, -1⟩,
   ⟨6000, 0, 0, 80, 80, 6000, 0⟩,
   ⟨6000, 100, 0, 80, 80, 6000, 0⟩,
   ⟨6000, 200, 0, 80, 80, 6000, 0⟩]

unseal Rat.mul Rat.inv Rat.add Rat.sub in
/-- C1 counterexample: on a blueprint measuring as `detailed_cad`
(thickness 9, density 0.06), the Style Analyzer's ParameterSet sets
`min_room_area_pixels = 8000`, yet `detect_rooms_adaptive` returns a
room of area 6000 — the hierarchy extraction admitted it against the
hardcoded module-level minimum 5000, so the adaptive band of the claim
is violated by the returned list. -/
theorem C1_counterexample :
    (get_adaptive_parameters (classify_blueprint_style 9 (6/100) 1 0)
      9 (6/100) 1).min_room_area_pixels = 8000
    ∧ (⟨0, (0, 0, 80, 80), 99/100, "room", 6000⟩ : Room)
        ∈ detect_rooms_adaptive 9 (6/100) 1 0 exContoursC1
    ∧ (6000 : ℤ) < 8000 := by
  refine ⟨by decide, by decide, by decide⟩

unseal Rat.mul Rat.inv Rat.add Rat.sub in
/-- Closed instance of `C1_area_band` at the concrete contour set of
the counterexample. -/
theorem C1_witness :
    min global_min_room_area_pixels
      (get_adaptive_parameters (classify_blueprint_style 9 (6/100) 1 0)
        9 (6/100) 1).min_room_area_pixels
      ≤ (⟨0, (0, 0, 80, 80), 99/100, "room", 6000⟩ : Room).area_pixels
    ∧ (⟨0, (0, 0, 80, 80), 99/100, "room", 6000⟩ : Room).area_pixels
      ≤ global_max_room_area_pixels :=
  C1_area_band 9 (6/100) 1 0 exContoursC1 (by decide) _ (by decide)

end RoomView
